import Mathlib

/-!
Verification development for the SafeArchive encrypted-archive core.

The definitions below are a shallow embedding of the Python sources:

* `cli.py` — the two encryption backends (`encrypt_with_cryptography` /
  `decrypt_with_cryptography` over the `cryptography` library's Fernet,
  and `encrypt_with_pycrypto` / `decrypt_with_pycrypto` over
  pycryptodome's AES-CBC), the encryption dispatcher inside
  `perform_encrypt_and_backup`, and the decryption dispatcher
  `try_decrypt`.
* `Scripts/api_helpers.py` — the archive builder `zip_paths_to_file`,
  the backup-store writer `save_and_encrypt_backup` and the restore
  helper `decrypt_backup_to_zip`.

Byte strings are modelled as `List Nat`.  Third-party cryptographic
primitives (PBKDF2, the AES block permutation, the Fernet token scheme,
urlsafe base64) are kept abstract: the embedded functions are
parameterised over them, mirroring exactly the arguments the Python code
passes to each primitive, and theorems assume only the documented
contracts of the primitives (for example that the AES block decryption
inverts the block encryption on 16-byte blocks).
-/

/-- Hash algorithms that can parameterise a PBKDF2 invocation. -/
inductive HashAlg where
  | sha1
  | sha256
deriving DecidableEq, Repr

/-- Abstract PBKDF2 primitive: hash algorithm, password, salt, derived
key length in bytes, iteration count. -/
def PBKDF2fn : Type := HashAlg → List Nat → List Nat → Nat → Nat → List Nat

/-- Key derivation performed by Backend A (`cli.py`,
`encrypt_with_cryptography` / `decrypt_with_cryptography`): the source
builds `PBKDF2HMAC(algorithm=hashes.SHA256(), length=32, salt=salt,
iterations=390000)` and derives from the password. -/
def cryptographyDeriveKey (pbkdf2 : PBKDF2fn) (password salt : List Nat) : List Nat :=
  pbkdf2 HashAlg.sha256 password salt 32 390000

/-- Key derivation performed by Backend B (`cli.py`,
`encrypt_with_pycrypto` / `decrypt_with_pycrypto`): the source calls
`PBKDF2(password, salt, dkLen=32, count=390000)` from
`Crypto.Protocol.KDF`, passing neither `prf` nor `hmac_hash_module`;
pycryptodome documents the default `hmac_hash_module` as SHA1, so the
invocation hashes with SHA-1. -/
def pycryptoDeriveKey (pbkdf2 : PBKDF2fn) (password salt : List Nat) : List Nat :=
  pbkdf2 HashAlg.sha1 password salt 32 390000

/-- Abstract 128-bit block cipher (the `AES` object of pycryptodome):
`enc key block` and `dec key block` act on 16-byte blocks. -/
structure BlockCipher where
  enc : List Nat → List Nat → List Nat
  dec : List Nat → List Nat → List Nat

/-- Abstract authenticated token scheme (the `Fernet` object of the
`cryptography` library): `dec` returns `none` when the token fails to
authenticate. -/
structure AEADScheme where
  enc : List Nat → List Nat → List Nat
  dec : List Nat → List Nat → Option (List Nat)

/-- Byte-wise XOR of two byte strings (truncating to the shorter). -/
def xorBytes (a b : List Nat) : List Nat :=
  List.zipWith (fun x y => x ^^^ y) a b

/-- Fuel-driven split of a byte string into 16-byte blocks (the block
iteration inside a CBC-mode cipher object). -/
def toBlocksAux : Nat → List Nat → List (List Nat)
  | 0, _ => []
  | _ + 1, [] => []
  | fuel + 1, a :: l => (a :: l).take 16 :: toBlocksAux fuel ((a :: l).drop 16)

/-- Split a byte string into consecutive 16-byte blocks. -/
def toBlocks (l : List Nat) : List (List Nat) :=
  toBlocksAux l.length l

/-- CBC-mode encryption over a list of plaintext blocks with the given
chaining value. -/
def cbcEncBlocks (C : BlockCipher) (key : List Nat) : List Nat → List (List Nat) → List (List Nat)
  | _, [] => []
  | prev, b :: bs =>
      let c := C.enc key (xorBytes prev b)
      c :: cbcEncBlocks C key c bs

/-- CBC-mode decryption over a list of ciphertext blocks with the given
chaining value. -/
def cbcDecBlocks (C : BlockCipher) (key : List Nat) : List Nat → List (List Nat) → List (List Nat)
  | _, [] => []
  | prev, c :: cs => xorBytes prev (C.dec key c) :: cbcDecBlocks C key c cs

/-- `AES.new(key, AES.MODE_CBC, iv).encrypt(data)`. -/
def aesCbcEncrypt (C : BlockCipher) (key iv data : List Nat) : List Nat :=
  (cbcEncBlocks C key iv (toBlocks data)).flatten

/-- `AES.new(key, AES.MODE_CBC, iv).decrypt(data)`. -/
def aesCbcDecrypt (C : BlockCipher) (key iv data : List Nat) : List Nat :=
  (cbcDecBlocks C key iv (toBlocks data)).flatten

/-- `encrypt_with_cryptography` (`cli.py`): derive a key with
PBKDF2-SHA256 (32 bytes, 390000 iterations), urlsafe-base64-encode it,
encrypt the data as a Fernet token and return `salt + token`.  The
fresh random `salt` is passed explicitly here. -/
def encrypt_with_cryptography (F : AEADScheme) (pbkdf2 : PBKDF2fn)
    (b64 : List Nat → List Nat) (salt data password : List Nat) : List Nat :=
  let key := b64 (cryptographyDeriveKey pbkdf2 password salt)
  salt ++ F.enc key data

/-- `decrypt_with_cryptography` (`cli.py`): split the stored bytes as
`salt(16) + token`, re-derive the key from the password and the
embedded salt, and decrypt the token (`none` models the library's
`InvalidToken` exception). -/
def decrypt_with_cryptography (F : AEADScheme) (pbkdf2 : PBKDF2fn)
    (b64 : List Nat → List Nat) (enc_bytes password : List Nat) : Option (List Nat) :=
  let salt := enc_bytes.take 16
  let token := enc_bytes.drop 16
  let key := b64 (cryptographyDeriveKey pbkdf2 password salt)
  F.dec key token

/-- `encrypt_with_pycrypto` (`cli.py`): derive a key with PBKDF2
(dkLen=32, count=390000, library-default SHA-1), PKCS#7-pad the data
with `16 - (len mod 16)` bytes each equal to that pad length, encrypt
in CBC mode, and return `salt(16) + iv(16) + ciphertext`.  The fresh
random `salt` and `iv` are passed explicitly here. -/
def encrypt_with_pycrypto (C : BlockCipher) (pbkdf2 : PBKDF2fn)
    (salt iv data password : List Nat) : List Nat :=
  let key := pycryptoDeriveKey pbkdf2 password salt
  let pad_len := 16 - data.length % 16
  let data_padded := data ++ List.replicate pad_len pad_len
  salt ++ iv ++ aesCbcEncrypt C key iv data_padded

/-- Failure modes of `decrypt_with_pycrypto`: the cipher object's
rejection of input whose length is not a multiple of 16, the
`IndexError` from reading `padded[-1]` of an empty plaintext, and the
explicit `ValueError` for a pad byte outside `[1, 16]`. -/
inductive DecryptError where
  | blockSize
  | indexError
  | badPadding
deriving DecidableEq, Repr

/-- `decrypt_with_pycrypto` (`cli.py`): split the stored bytes as
`salt(16) + iv(16) + ciphertext`, re-derive the key, CBC-decrypt, read
the last byte as the claimed pad length, raise when it lies outside
`[1, 16]`, and otherwise strip that many trailing bytes. -/
def decrypt_with_pycrypto (C : BlockCipher) (pbkdf2 : PBKDF2fn)
    (enc_bytes password : List Nat) : Except DecryptError (List Nat) :=
  let salt := enc_bytes.take 16
  let iv := (enc_bytes.drop 16).take 16
  let ciphertext := enc_bytes.drop 32
  let key := pycryptoDeriveKey pbkdf2 password salt
  if ciphertext.length % 16 ≠ 0 then
    Except.error DecryptError.blockSize
  else
    let padded := aesCbcDecrypt C key iv ciphertext
    match padded.getLast? with
    | none => Except.error DecryptError.indexError
    | some pad_len =>
        if pad_len < 1 ∨ pad_len > 16 then
          Except.error DecryptError.badPadding
        else
          Except.ok (padded.take (padded.length - pad_len))

/-- `try_decrypt` (`cli.py`): try Backend A's decrypt when the
`cryptography` import succeeded, swallowing any failure; then Backend
B's decrypt when the pycryptodome import succeeded, swallowing any
failure; raise `ValueError` (modelled as `Except.error ()`) when
neither produced a result. -/
def try_decrypt (cryptographyAvailable pycryptoAvailable : Bool)
    (F : AEADScheme) (C : BlockCipher) (pbkdf2 : PBKDF2fn)
    (b64 : List Nat → List Nat) (enc_bytes password : List Nat) :
    Except Unit (List Nat) :=
  match (if cryptographyAvailable then
           decrypt_with_cryptography F pbkdf2 b64 enc_bytes password
         else none) with
  | some d => Except.ok d
  | none =>
      match (if pycryptoAvailable then
               (decrypt_with_pycrypto C pbkdf2 enc_bytes password).toOption
             else none) with
      | some d => Except.ok d
      | none => Except.error ()

/-- The two encryption backends, as named in the dispatcher's `method`
message. -/
inductive Backend where
  | cryptography
  | pycryptodome
deriving DecidableEq, Repr

/-- Result of the encryption stage of `perform_encrypt_and_backup`
(`cli.py`): either an encrypted archive together with the backend that
produced it, or the plain zip stored unencrypted after the warning
message. -/
inductive BackupOutcome where
  | encrypted (method : Backend) (bytes : List Nat)
  | unencryptedFallback (bytes : List Nat)
deriving DecidableEq, Repr

/-- The encryption dispatcher inside `perform_encrypt_and_backup`
(`cli.py`): when the `cryptography` import succeeded, attempt Backend A
(`encA = none` models the attempt raising); when nothing was produced
and the pycryptodome import succeeded, attempt Backend B; when still
nothing was produced, fall back to storing the zip unencrypted. -/
def performEncryptAndBackup (cryptographyAvailable pycryptoAvailable : Bool)
    (encA encB : Option (List Nat)) (zipBytes : List Nat) : BackupOutcome :=
  let step1 : Option (Backend × List Nat) :=
    if cryptographyAvailable then
      encA.map (fun b => (Backend.cryptography, b))
    else none
  let step2 : Option (Backend × List Nat) :=
    match step1 with
    | some r => some r
    | none =>
        if pycryptoAvailable then
          encB.map (fun b => (Backend.pycryptodome, b))
        else none
  match step2 with
  | some (m, b) => BackupOutcome.encrypted m b
  | none => BackupOutcome.unencryptedFallback zipBytes

section CbcLemmas

theorem xorBytes_length (a b : List Nat) :
    (xorBytes a b).length = min a.length b.length := by
  simp [xorBytes]

theorem xorBytes_xorBytes_cancel (a b : List Nat) (h : a.length = b.length) :
    xorBytes a (xorBytes a b) = b := by
  induction a generalizing b with
  | nil =>
      cases b with
      | nil => rfl
      | cons y ys => simp at h
  | cons x xs ih =>
      cases b with
      | nil => simp at h
      | cons y ys =>
          simp only [List.length_cons, Nat.add_right_cancel_iff] at h
          show (x ^^^ (x ^^^ y)) :: xorBytes xs (xorBytes xs ys) = y :: ys
          rw [← Nat.xor_assoc, Nat.xor_self, Nat.zero_xor, ih ys h]

/-- Every block of a well-chained CBC ciphertext has length 16, given a
block cipher whose encryption preserves the 16-byte block length. -/
theorem cbcEncBlocks_mem_length (C : BlockCipher) (key : List Nat)
    (Hlen : ∀ b : List Nat, b.length = 16 → (C.enc key b).length = 16)
    (prev : List Nat) (blocks : List (List Nat))
    (hprev : prev.length = 16) (hb : ∀ b ∈ blocks, b.length = 16) :
    ∀ c ∈ cbcEncBlocks C key prev blocks, c.length = 16 := by
  induction blocks generalizing prev with
  | nil => intro c hc; simp [cbcEncBlocks] at hc
  | cons b bs ih =>
      intro c hc
      have hblen : b.length = 16 := hb b (by simp)
      have hxlen : (xorBytes prev b).length = 16 := by
        rw [xorBytes_length, hprev, hblen]; simp
      have hclen : (C.enc key (xorBytes prev b)).length = 16 := Hlen _ hxlen
      simp only [cbcEncBlocks, List.mem_cons] at hc
      rcases hc with rfl | hc
      · exact hclen
      · exact ih _ hclen (fun x hx => hb x (by simp [hx])) c hc

/-- CBC decryption inverts CBC encryption block-wise, given a block
cipher whose decryption inverts its encryption on 16-byte blocks and
whose encryption preserves the block length. -/
theorem cbcDecBlocks_cbcEncBlocks (C : BlockCipher) (key : List Nat)
    (Hlen : ∀ b : List Nat, b.length = 16 → (C.enc key b).length = 16)
    (Hdec : ∀ b : List Nat, b.length = 16 → C.dec key (C.enc key b) = b)
    (prev : List Nat) (blocks : List (List Nat))
    (hprev : prev.length = 16) (hb : ∀ b ∈ blocks, b.length = 16) :
    cbcDecBlocks C key prev (cbcEncBlocks C key prev blocks) = blocks := by
  induction blocks generalizing prev with
  | nil => rfl
  | cons b bs ih =>
      have hblen : b.length = 16 := hb b (by simp)
      have hxlen : (xorBytes prev b).length = 16 := by
        rw [xorBytes_length, hprev, hblen]; simp
      have hclen : (C.enc key (xorBytes prev b)).length = 16 := Hlen _ hxlen
      show xorBytes prev (C.dec key (C.enc key (xorBytes prev b)))
            :: cbcDecBlocks C key (C.enc key (xorBytes prev b))
                 (cbcEncBlocks C key (C.enc key (xorBytes prev b)) bs)
          = b :: bs
      rw [Hdec _ hxlen, xorBytes_xorBytes_cancel prev b (by rw [hprev, hblen]),
        ih _ hclen (fun x hx => hb x (by simp [hx]))]

/-- The fuel drives `toBlocksAux` only as an upper bound: any two
sufficient fuels give the same block list. -/
theorem toBlocksAux_fuel (f1 : Nat) : ∀ (f2 : Nat) (l : List Nat),
    l.length ≤ f1 → l.length ≤ f2 → toBlocksAux f1 l = toBlocksAux f2 l := by
  induction f1 with
  | zero =>
      intro f2 l h1 _
      have : l = [] := List.eq_nil_of_length_eq_zero (Nat.le_zero.mp h1)
      subst this
      cases f2 <;> rfl
  | succ f1 ih =>
      intro f2 l h1 h2
      cases l with
      | nil => cases f2 <;> rfl
      | cons a t =>
          cases f2 with
          | zero => simp at h2
          | succ f2 =>
              show (a :: t).take 16 :: toBlocksAux f1 ((a :: t).drop 16)
                  = (a :: t).take 16 :: toBlocksAux f2 ((a :: t).drop 16)
              have hd : ((a :: t).drop 16).length = (a :: t).length - 16 := by
                simp
              have hle1 : ((a :: t).drop 16).length ≤ f1 := by
                rw [hd]
                have : (a :: t).length - 16 ≤ (a :: t).length - 1 :=
                  Nat.sub_le_sub_left (by norm_num) _
                omega
              have hle2 : ((a :: t).drop 16).length ≤ f2 := by
                rw [hd]
                have h2' : (a :: t).length ≤ f2 + 1 := h2
                omega
              rw [ih f2 _ hle1 hle2]

/-- Splitting a byte string that starts with a full 16-byte block peels
that block off. -/
theorem toBlocks_cons16 (b rest : List Nat) (hb : b.length = 16) :
    toBlocks (b ++ rest) = b :: toBlocks rest := by
  cases b with
  | nil => simp at hb
  | cons x b' =>
      show toBlocksAux ((x :: b') ++ rest).length ((x :: b') ++ rest)
          = (x :: b') :: toBlocks rest
      have hb' : b'.length = 15 := by simpa using hb
      have hlen : ((x :: b') ++ rest).length = (rest.length + 15) + 1 := by
        simp [List.length_append, hb']
        omega
      rw [hlen]
      show ((x :: b') ++ rest).take 16 :: toBlocksAux (rest.length + 15) (((x :: b') ++ rest).drop 16)
          = (x :: b') :: toBlocks rest
      rw [List.take_left' hb, List.drop_left' hb]
      rw [toBlocksAux_fuel (rest.length + 15) rest.length rest (by omega) (by omega)]
      rfl

/-- Re-splitting a flattened list of 16-byte blocks recovers the
blocks. -/
theorem toBlocks_flatten (bs : List (List Nat)) (h : ∀ b ∈ bs, b.length = 16) :
    toBlocks bs.flatten = bs := by
  induction bs with
  | nil => rfl
  | cons b rest ih =>
      rw [List.flatten_cons, toBlocks_cons16 b rest.flatten (h b (by simp)),
        ih (fun x hx => h x (by simp [hx]))]

/-- Flattening the 16-byte blocks of a byte string gives the string
back. -/
theorem flatten_toBlocks (l : List Nat) : (toBlocks l).flatten = l := by
  suffices h : ∀ (f : Nat) (l : List Nat), l.length ≤ f → (toBlocksAux f l).flatten = l by
    exact h l.length l (Nat.le_refl _)
  intro f
  induction f with
  | zero =>
      intro l hl
      have : l = [] := List.eq_nil_of_length_eq_zero (Nat.le_zero.mp hl)
      subst this; rfl
  | succ f ih =>
      intro l hl
      cases l with
      | nil => rfl
      | cons a t =>
          have hl' : t.length + 1 ≤ f + 1 := by simpa using hl
          show ((a :: t).take 16 :: toBlocksAux f ((a :: t).drop 16)).flatten = a :: t
          rw [List.flatten_cons, ih _ (by simp; omega)]
          exact List.take_append_drop 16 (a :: t)

/-- Every block of a byte string whose length is a multiple of 16 has
length exactly 16. -/
theorem toBlocks_mem_length (l : List Nat) (h : l.length % 16 = 0) :
    ∀ b ∈ toBlocks l, b.length = 16 := by
  suffices hgen : ∀ (f : Nat) (l : List Nat), l.length ≤ f → l.length % 16 = 0 →
      ∀ b ∈ toBlocksAux f l, b.length = 16 by
    exact hgen l.length l (Nat.le_refl _) h
  intro f
  induction f with
  | zero =>
      intro l hl _ b hb
      have : l = [] := List.eq_nil_of_length_eq_zero (Nat.le_zero.mp hl)
      subst this; simp [toBlocksAux] at hb
  | succ f ih =>
      intro l hl hmod b hb
      cases l with
      | nil => simp [toBlocksAux] at hb
      | cons a t =>
          have hlen : (a :: t).length = t.length + 1 := by simp
          have hpos : 0 < (a :: t).length := by simp
          have hdvd : 16 ∣ (a :: t).length := Nat.dvd_of_mod_eq_zero hmod
          have h16 : 16 ≤ (a :: t).length := Nat.le_of_dvd hpos hdvd
          rw [hlen] at h16 hl
          simp only [toBlocksAux, List.mem_cons] at hb
          rcases hb with rfl | hb
          · rw [List.length_take, hlen]; omega
          · refine ih ((a :: t).drop 16) ?_ ?_ b hb
            · rw [List.length_drop, hlen]; omega
            · have hdvd2 : 16 ∣ ((a :: t).length - 16) :=
                Nat.dvd_sub' hdvd (Nat.dvd_refl 16)
              rw [List.length_drop]
              omega

/-- The flattening of a list of 16-byte blocks has length a multiple of
16. -/
theorem flatten_length_mod (bs : List (List Nat)) (h : ∀ b ∈ bs, b.length = 16) :
    bs.flatten.length % 16 = 0 := by
  induction bs with
  | nil => rfl
  | cons b rest ih =>
      rw [List.flatten_cons, List.length_append, h b (by simp), Nat.add_mod_left]
      exact ih (fun x hx => h x (by simp [hx]))

end CbcLemmas

section PycryptoRoundTrip

/-- The PKCS#7-padded plaintext of `encrypt_with_pycrypto` ends in its
pad byte. -/
theorem padded_getLast (data : List Nat) :
    (data ++ List.replicate (16 - data.length % 16) (16 - data.length % 16)).getLast?
      = some (16 - data.length % 16) := by
  rw [List.getLast?_append, List.getLast?_replicate, if_neg (by omega)]
  rfl

/-- The PKCS#7-padded plaintext has length a multiple of 16. -/
theorem padded_length_mod (data : List Nat) :
    (data ++ List.replicate (16 - data.length % 16) (16 - data.length % 16)).length % 16
      = 0 := by
  rw [List.length_append, List.length_replicate]
  omega

/-- Backend B round-trip: decrypting an `encrypt_with_pycrypto`
envelope with the same password recovers the plaintext, for any block
cipher whose decryption inverts its encryption on 16-byte blocks. -/
theorem decrypt_encrypt_with_pycrypto (C : BlockCipher) (pbkdf2 : PBKDF2fn)
    (Hlen : ∀ k b : List Nat, b.length = 16 → (C.enc k b).length = 16)
    (Hdec : ∀ k b : List Nat, b.length = 16 → C.dec k (C.enc k b) = b)
    (salt iv data password : List Nat)
    (hs : salt.length = 16) (hiv : iv.length = 16) :
    decrypt_with_pycrypto C pbkdf2
      (encrypt_with_pycrypto C pbkdf2 salt iv data password) password
      = Except.ok data := by
  have hpadmod := padded_length_mod data
  set key := pycryptoDeriveKey pbkdf2 password salt with hkey
  set pad_len := 16 - data.length % 16 with hpl
  set padded := data ++ List.replicate pad_len pad_len with hpadded
  set ct := (cbcEncBlocks C key iv (toBlocks padded)).flatten with hct
  have hblocks : ∀ b ∈ toBlocks padded, b.length = 16 :=
    toBlocks_mem_length _ hpadmod
  have hencb : ∀ c ∈ cbcEncBlocks C key iv (toBlocks padded), c.length = 16 :=
    cbcEncBlocks_mem_length C key (Hlen key) iv _ hiv hblocks
  have hctmod : ct.length % 16 = 0 := flatten_length_mod _ hencb
  have henc : encrypt_with_pycrypto C pbkdf2 salt iv data password
      = salt ++ (iv ++ ct) := by
    simp only [encrypt_with_pycrypto, aesCbcEncrypt, hct, hkey, hpadded, hpl]
    rw [List.append_assoc]
  have htake16 : (salt ++ (iv ++ ct)).take 16 = salt := List.take_left' hs
  have hdrop16 : (salt ++ (iv ++ ct)).drop 16 = iv ++ ct := List.drop_left' hs
  have hdrop32 : (salt ++ (iv ++ ct)).drop 32 = ct := by
    rw [← List.append_assoc]
    exact List.drop_left' (by rw [List.length_append, hs, hiv])
  have hdecrypted : aesCbcDecrypt C key iv ct = padded := by
    rw [hct, aesCbcDecrypt, toBlocks_flatten _ hencb,
      cbcDecBlocks_cbcEncBlocks C key (Hlen key) (Hdec key) iv _ hiv hblocks,
      flatten_toBlocks]
  have hlast : padded.getLast? = some pad_len := padded_getLast data
  have hlen_sub : padded.length - pad_len = data.length := by
    rw [hpadded, List.length_append, List.length_replicate]
    omega
  rw [henc]
  simp only [decrypt_with_pycrypto, htake16, hdrop16, List.take_left' hiv,
    hdrop32, hctmod]
  rw [if_neg (by omega : ¬(0 ≠ 0)), ← hkey]
  simp only [hdecrypted, hlast]
  rw [if_neg (by omega : ¬(pad_len < 1 ∨ pad_len > 16)), hlen_sub, hpadded,
    List.take_left]

end PycryptoRoundTrip

/-- Backend A round-trip: decrypting an `encrypt_with_cryptography`
envelope with the same password recovers the plaintext, for any token
scheme whose decryption inverts its encryption under the same key. -/
theorem decrypt_encrypt_with_cryptography (F : AEADScheme) (pbkdf2 : PBKDF2fn)
    (b64 : List Nat → List Nat) (salt data password : List Nat)
    (hs : salt.length = 16)
    (HF : ∀ k d : List Nat, F.dec k (F.enc k d) = some d) :
    decrypt_with_cryptography F pbkdf2 b64
      (encrypt_with_cryptography F pbkdf2 b64 salt data password) password
      = some data := by
  simp only [encrypt_with_cryptography, decrypt_with_cryptography,
    List.take_left' hs, List.drop_left' hs, HF]

/-- Identity token scheme: a concrete `AEADScheme` satisfying the
Fernet round-trip contract, used to instantiate witnesses. -/
def idAEAD : AEADScheme where
  enc := fun _ d => d
  dec := fun _ d => some d

/-- Identity block cipher: a concrete `BlockCipher` satisfying the AES
block contract, used to instantiate witnesses. -/
def idBlockCipher : BlockCipher where
  enc := fun _ b => b
  dec := fun _ b => b

/-- A concrete PBKDF2 instantiation returning a constant 32-byte key,
used to instantiate witnesses. -/
def constPBKDF2 : PBKDF2fn := fun _ _ _ _ _ => List.replicate 32 7

/-- A token scheme whose decryption rejects every token (as Fernet does
on malformed input), used to instantiate witnesses. -/
def failAEAD : AEADScheme where
  enc := fun _ d => d
  dec := fun _ _ => none

/-- A PBKDF2 instantiation whose output records which hash algorithm
was requested, separating SHA-1 from SHA-256 invocations. -/
def probePBKDF2 : PBKDF2fn := fun h _ _ _ _ =>
  match h with
  | HashAlg.sha1 => [0]
  | HashAlg.sha256 => [1]

/-- C1: for every container byte string and password, decrypting the
envelope produced by a backend's encrypt with the same password
returns exactly the container — independently for Backend A
(`decrypt_with_cryptography` after `encrypt_with_cryptography`) and
Backend B (`decrypt_with_pycrypto` after `encrypt_with_pycrypto`) —
for any token scheme and block cipher meeting the libraries'
documented inversion contracts. -/
theorem roundtrip_both_backends (F : AEADScheme) (C : BlockCipher)
    (pbkdf2 : PBKDF2fn) (b64 : List Nat → List Nat)
    (saltA saltB iv data password : List Nat)
    (hsA : saltA.length = 16) (hsB : saltB.length = 16) (hiv : iv.length = 16)
    (HF : ∀ k d : List Nat, F.dec k (F.enc k d) = some d)
    (Hlen : ∀ k b : List Nat, b.length = 16 → (C.enc k b).length = 16)
    (Hdec : ∀ k b : List Nat, b.length = 16 → C.dec k (C.enc k b) = b) :
    decrypt_with_cryptography F pbkdf2 b64
        (encrypt_with_cryptography F pbkdf2 b64 saltA data password) password
      = some data
    ∧ decrypt_with_pycrypto C pbkdf2
        (encrypt_with_pycrypto C pbkdf2 saltB iv data password) password
      = Except.ok data :=
  ⟨decrypt_encrypt_with_cryptography F pbkdf2 b64 saltA data password hsA HF,
   decrypt_encrypt_with_pycrypto C pbkdf2 Hlen Hdec saltB iv data password hsB hiv⟩

/-- Witness for C1 at a concrete container, password, salts and iv. -/
theorem roundtrip_both_backends_witness :
    decrypt_with_cryptography idAEAD constPBKDF2 id
        (encrypt_with_cryptography idAEAD constPBKDF2 id
          (List.replicate 16 0) [1, 2, 3] [9]) [9]
      = some [1, 2, 3]
    ∧ decrypt_with_pycrypto idBlockCipher constPBKDF2
        (encrypt_with_pycrypto idBlockCipher constPBKDF2
          (List.replicate 16 0) (List.replicate 16 1) [1, 2, 3] [9]) [9]
      = Except.ok [1, 2, 3] :=
  roundtrip_both_backends idAEAD idBlockCipher constPBKDF2 id
    (List.replicate 16 0) (List.replicate 16 0) (List.replicate 16 1)
    [1, 2, 3] [9] (by decide) (by decide) (by decide)
    (fun _ _ => rfl) (fun _ _ h => h) (fun _ _ _ => rfl)

/-- C3 counterexample: Backend B's key derivation is not PBKDF2 with
SHA-256 — instantiating the abstract PBKDF2 primitive with a recorder
that reports the requested hash shows `pycryptoDeriveKey` requests
SHA-1, the pycryptodome default, since `decrypt_with_pycrypto` and
`encrypt_with_pycrypto` pass no hash module. -/
theorem pycrypto_kdf_not_sha256 :
    pycryptoDeriveKey probePBKDF2 [] []
      ≠ probePBKDF2 HashAlg.sha256 [] [] 32 390000 := by
  decide

/-- C3 (amended): key derivation on both encrypt and decrypt of each
backend is the same pure function of password and salt — PBKDF2 with
390000 iterations and a 32-byte output — with hash SHA-256 in Backend
A but hash SHA-1 (the pycryptodome default) in Backend B. -/
theorem kdf_parameters (pbkdf2 : PBKDF2fn) (password salt : List Nat) :
    cryptographyDeriveKey pbkdf2 password salt
      = pbkdf2 HashAlg.sha256 password salt 32 390000
    ∧ pycryptoDeriveKey pbkdf2 password salt
      = pbkdf2 HashAlg.sha1 password salt 32 390000
    ∧ (∀ (F : AEADScheme) (b64 : List Nat → List Nat) (data : List Nat),
        encrypt_with_cryptography F pbkdf2 b64 salt data password
          = salt ++ F.enc (b64 (pbkdf2 HashAlg.sha256 password salt 32 390000)) data)
    ∧ (∀ (F : AEADScheme) (b64 : List Nat → List Nat) (enc_bytes : List Nat),
        decrypt_with_cryptography F pbkdf2 b64 enc_bytes password
          = F.dec (b64 (pbkdf2 HashAlg.sha256 password (enc_bytes.take 16) 32 390000))
              (enc_bytes.drop 16))
    ∧ (∀ (C : BlockCipher) (iv data : List Nat),
        encrypt_with_pycrypto C pbkdf2 salt iv data password
          = salt ++ iv ++ aesCbcEncrypt C (pbkdf2 HashAlg.sha1 password salt 32 390000) iv
              (data ++ List.replicate (16 - data.length % 16) (16 - data.length % 16))) :=
  ⟨rfl, rfl, fun _ _ _ => rfl, fun _ _ _ => rfl, fun _ _ _ => rfl⟩

/-- C2: the dispatcher tries backends in a fixed order on both sides —
encryption attempts Backend A first when its import succeeded, falls
back to Backend B on any failure, and with both backends unavailable
the container is stored unencrypted (the backup proceeds with the
warning); `try_decrypt` tries Backend A's decrypt first, then Backend
B's, and reports the decryption-failed error exactly when every
available backend was tried and failed. -/
theorem dispatcher_fixed_order (cryptographyAvailable pycryptoAvailable : Bool)
    (encA encB : Option (List Nat)) (zipBytes : List Nat)
    (F : AEADScheme) (C : BlockCipher) (pbkdf2 : PBKDF2fn)
    (b64 : List Nat → List Nat) (enc_bytes password : List Nat) :
    (∀ b, cryptographyAvailable = true → encA = some b →
        performEncryptAndBackup cryptographyAvailable pycryptoAvailable encA encB zipBytes
          = BackupOutcome.encrypted Backend.cryptography b)
    ∧ (∀ b, (cryptographyAvailable = false ∨ encA = none) →
        pycryptoAvailable = true → encB = some b →
        performEncryptAndBackup cryptographyAvailable pycryptoAvailable encA encB zipBytes
          = BackupOutcome.encrypted Backend.pycryptodome b)
    ∧ (cryptographyAvailable = false → pycryptoAvailable = false →
        performEncryptAndBackup cryptographyAvailable pycryptoAvailable encA encB zipBytes
          = BackupOutcome.unencryptedFallback zipBytes)
    ∧ (∀ d, cryptographyAvailable = true →
        decrypt_with_cryptography F pbkdf2 b64 enc_bytes password = some d →
        try_decrypt cryptographyAvailable pycryptoAvailable F C pbkdf2 b64 enc_bytes password
          = Except.ok d)
    ∧ (∀ d, (cryptographyAvailable = false ∨
          decrypt_with_cryptography F pbkdf2 b64 enc_bytes password = none) →
        pycryptoAvailable = true →
        decrypt_with_pycrypto C pbkdf2 enc_bytes password = Except.ok d →
        try_decrypt cryptographyAvailable pycryptoAvailable F C pbkdf2 b64 enc_bytes password
          = Except.ok d)
    ∧ (try_decrypt cryptographyAvailable pycryptoAvailable F C pbkdf2 b64 enc_bytes password
          = Except.error ()
        ↔ ((cryptographyAvailable = true →
              decrypt_with_cryptography F pbkdf2 b64 enc_bytes password = none)
            ∧ (pycryptoAvailable = true →
              (decrypt_with_pycrypto C pbkdf2 enc_bytes password).toOption = none))) := by
  refine ⟨?_, ?_, ?_, ?_, ?_, ?_⟩
  · intro b hca ha
    subst hca
    simp [performEncryptAndBackup, ha]
  · intro b h hpa hb
    subst hpa
    rcases h with h | h
    · subst h
      simp [performEncryptAndBackup, hb]
    · subst h
      cases cryptographyAvailable <;> simp [performEncryptAndBackup, hb]
  · intro h1 h2
    subst h1; subst h2
    simp [performEncryptAndBackup]
  · intro d hca hd
    subst hca
    simp [try_decrypt, hd]
  · intro d h hpa hd
    subst hpa
    rcases h with h | h
    · subst h
      simp [try_decrypt, hd, Except.toOption]
    · cases cryptographyAvailable <;> simp [try_decrypt, h, hd, Except.toOption]
  · cases hca : cryptographyAvailable <;> cases hpa : pycryptoAvailable <;>
      cases hA : decrypt_with_cryptography F pbkdf2 b64 enc_bytes password <;>
      cases hB : decrypt_with_pycrypto C pbkdf2 enc_bytes password <;>
      simp [try_decrypt, hA, hB, Except.toOption]

/-- Witness for C2: the dispatcher at concrete availability flags,
backend results and inputs. -/
theorem dispatcher_fixed_order_witness :
    performEncryptAndBackup true true (some [1]) (some [2]) [3]
      = BackupOutcome.encrypted Backend.cryptography [1]
    ∧ performEncryptAndBackup false true (some [1]) (some [2]) [3]
      = BackupOutcome.encrypted Backend.pycryptodome [2]
    ∧ performEncryptAndBackup false false (some [1]) (some [2]) [3]
      = BackupOutcome.unencryptedFallback [3]
    ∧ try_decrypt true true idAEAD idBlockCipher constPBKDF2 id
        (List.replicate 33 0) [] = Except.ok (List.replicate 17 0)
    ∧ try_decrypt true true failAEAD idBlockCipher constPBKDF2 id
        (List.replicate 16 0 ++ List.replicate 16 1 ++ List.replicate 16 4) []
      = Except.ok (List.replicate 11 5)
    ∧ try_decrypt true true failAEAD idBlockCipher constPBKDF2 id [7] []
      = Except.error () := by
  have h1 := dispatcher_fixed_order true true (some [1]) (some [2]) [3]
    idAEAD idBlockCipher constPBKDF2 id (List.replicate 33 0) []
  have h2 := dispatcher_fixed_order false true (some [1]) (some [2]) [3]
    failAEAD idBlockCipher constPBKDF2 id
    (List.replicate 16 0 ++ List.replicate 16 1 ++ List.replicate 16 4) []
  have h3 := dispatcher_fixed_order false false (some [1]) (some [2]) [3]
    failAEAD idBlockCipher constPBKDF2 id [7] []
  have h4 := dispatcher_fixed_order true true (some [1]) (some [2]) [3]
    failAEAD idBlockCipher constPBKDF2 id
    (List.replicate 16 0 ++ List.replicate 16 1 ++ List.replicate 16 4) []
  have h5 := dispatcher_fixed_order true true (some [1]) (some [2]) [3]
    failAEAD idBlockCipher constPBKDF2 id [7] []
  refine ⟨h1.1 [1] rfl rfl, h2.2.1 [2] (Or.inl rfl) rfl rfl,
    h3.2.2.1 rfl rfl, h1.2.2.2.1 (List.replicate 17 0) rfl (by rfl),
    h4.2.2.2.2.1 (List.replicate 11 5) (Or.inr rfl) rfl (by rfl),
    (h5.2.2.2.2.2).mpr ⟨fun _ => rfl, fun _ => rfl⟩⟩

/-- C7: `decrypt_with_pycrypto`, after CBC-decrypting a well-sized
ciphertext, reads the last byte of the result as the claimed pad
length; it reports the padding error exactly when that value lies
outside `[1, 16]`, and otherwise strips exactly that many trailing
bytes from the decrypted bytes. -/
theorem decrypt_with_pycrypto_padding_check (C : BlockCipher) (pbkdf2 : PBKDF2fn)
    (salt iv ct password : List Nat) (pad_len : Nat)
    (hs : salt.length = 16) (hiv : iv.length = 16) (hct : ct.length % 16 = 0)
    (hlast : (aesCbcDecrypt C (pycryptoDeriveKey pbkdf2 password salt) iv ct).getLast?
        = some pad_len) :
    (decrypt_with_pycrypto C pbkdf2 (salt ++ iv ++ ct) password
        = Except.error DecryptError.badPadding
      ↔ (pad_len < 1 ∨ pad_len > 16))
    ∧ (1 ≤ pad_len → pad_len ≤ 16 →
        decrypt_with_pycrypto C pbkdf2 (salt ++ iv ++ ct) password
          = Except.ok ((aesCbcDecrypt C (pycryptoDeriveKey pbkdf2 password salt) iv ct).take
              ((aesCbcDecrypt C (pycryptoDeriveKey pbkdf2 password salt) iv ct).length
                - pad_len))) := by
  have htake16 : (salt ++ (iv ++ ct)).take 16 = salt := List.take_left' hs
  have hdrop16 : (salt ++ (iv ++ ct)).drop 16 = iv ++ ct := List.drop_left' hs
  have hdrop32 : (salt ++ (iv ++ ct)).drop 32 = ct := by
    rw [← List.append_assoc]
    exact List.drop_left' (by rw [List.length_append, hs, hiv])
  have hform : salt ++ iv ++ ct = salt ++ (iv ++ ct) := List.append_assoc salt iv ct
  rw [hform]
  simp only [decrypt_with_pycrypto, htake16, hdrop16, List.take_left' hiv,
    hdrop32, hct]
  rw [if_neg (by omega : ¬(0 ≠ 0))]
  simp only [hlast]
  by_cases hbad : pad_len < 1 ∨ pad_len > 16
  · rw [if_pos hbad]
    exact ⟨⟨fun _ => hbad, fun _ => rfl⟩, fun h1 h16 => by omega⟩
  · rw [if_neg hbad]
    constructor
    · constructor
      · intro h
        simp at h
      · intro h
        exact absurd h hbad
    · intro _ _
      rfl

/-- Witness for C7 at a concrete envelope whose decrypted plaintext
ends in the valid pad byte 5: the 5 pad bytes are stripped. -/
theorem decrypt_with_pycrypto_padding_check_witness :
    decrypt_with_pycrypto idBlockCipher constPBKDF2
        (List.replicate 16 0 ++ List.replicate 16 1 ++ List.replicate 16 4) []
      = Except.ok (List.replicate 11 5) := by
  have h := decrypt_with_pycrypto_padding_check idBlockCipher constPBKDF2
    (List.replicate 16 0) (List.replicate 16 1) (List.replicate 16 4) [] 5
    (by decide) (by decide) (by decide) (by decide)
  rw [h.2 (by decide) (by decide)]
  rfl

/-- C6: for every plaintext, `encrypt_with_pycrypto` produces an
envelope laid out as salt(16) followed by iv(16) followed by a
ciphertext whose length is a multiple of 16, where the plaintext was
padded with `16 - (len mod 16)` bytes each equal to that pad length —
a full 16-byte padding block when the length is already a multiple of
16 — and decryption strips exactly that padding. -/
theorem encrypt_with_pycrypto_layout (C : BlockCipher) (pbkdf2 : PBKDF2fn)
    (salt iv data password : List Nat)
    (hs : salt.length = 16) (hiv : iv.length = 16)
    (Hlen : ∀ k b : List Nat, b.length = 16 → (C.enc k b).length = 16)
    (Hdec : ∀ k b : List Nat, b.length = 16 → C.dec k (C.enc k b) = b) :
    encrypt_with_pycrypto C pbkdf2 salt iv data password
      = salt ++ iv ++ aesCbcEncrypt C (pycryptoDeriveKey pbkdf2 password salt) iv
          (data ++ List.replicate (16 - data.length % 16) (16 - data.length % 16))
    ∧ (aesCbcEncrypt C (pycryptoDeriveKey pbkdf2 password salt) iv
          (data ++ List.replicate (16 - data.length % 16) (16 - data.length % 16))).length % 16
      = 0
    ∧ (data.length % 16 = 0 → 16 - data.length % 16 = 16)
    ∧ decrypt_with_pycrypto C pbkdf2
        (encrypt_with_pycrypto C pbkdf2 salt iv data password) password
      = Except.ok data := by
  refine ⟨rfl, ?_, fun h => by omega,
    decrypt_encrypt_with_pycrypto C pbkdf2 Hlen Hdec salt iv data password hs hiv⟩
  exact flatten_length_mod _
    (cbcEncBlocks_mem_length C _ (Hlen _) iv _ hiv
      (toBlocks_mem_length _ (padded_length_mod data)))

/-- Witness for C6 at a concrete plaintext whose length is already a
multiple of 16: a full 16-byte pad block is added and stripped. -/
theorem encrypt_with_pycrypto_layout_witness :
    encrypt_with_pycrypto idBlockCipher constPBKDF2
        (List.replicate 16 0) (List.replicate 16 1) (List.replicate 16 2) []
      = List.replicate 16 0 ++ List.replicate 16 1
          ++ aesCbcEncrypt idBlockCipher
              (pycryptoDeriveKey constPBKDF2 [] (List.replicate 16 0))
              (List.replicate 16 1)
              (List.replicate 16 2 ++ List.replicate 16 16)
    ∧ (aesCbcEncrypt idBlockCipher
          (pycryptoDeriveKey constPBKDF2 [] (List.replicate 16 0))
          (List.replicate 16 1)
          (List.replicate 16 2 ++ List.replicate 16 16)).length % 16 = 0
    ∧ 16 - (List.replicate 16 2 : List Nat).length % 16 = 16
    ∧ decrypt_with_pycrypto idBlockCipher constPBKDF2
        (encrypt_with_pycrypto idBlockCipher constPBKDF2
          (List.replicate 16 0) (List.replicate 16 1) (List.replicate 16 2) []) []
      = Except.ok (List.replicate 16 2) := by
  have h := encrypt_with_pycrypto_layout idBlockCipher constPBKDF2
    (List.replicate 16 0) (List.replicate 16 1) (List.replicate 16 2) []
    (by decide) (by decide) (fun _ _ hb => hb) (fun _ _ _ => rfl)
  exact ⟨h.1, h.2.1, h.2.2.1 (by decide), h.2.2.2⟩

/-- C9: an input of at most 32 bytes leaves an empty ciphertext after
the 16-byte salt and 16-byte iv are removed, so `decrypt_with_pycrypto`
fails reading the pad byte of the empty decrypted plaintext (the
`IndexError` from `padded[-1]`) and never returns bytes; consequently
`try_decrypt` reports decryption failure for such inputs whenever
Backend A's decrypt also rejects them. -/
theorem short_input_decrypt_fails (C : BlockCipher) (F : AEADScheme)
    (pbkdf2 : PBKDF2fn) (b64 : List Nat → List Nat)
    (enc_bytes password : List Nat) (hlen : enc_bytes.length ≤ 32) :
    decrypt_with_pycrypto C pbkdf2 enc_bytes password
      = Except.error DecryptError.indexError
    ∧ (∀ cryptographyAvailable pycryptoAvailable : Bool,
        decrypt_with_cryptography F pbkdf2 b64 enc_bytes password = none →
        try_decrypt cryptographyAvailable pycryptoAvailable F C pbkdf2 b64
            enc_bytes password
          = Except.error ()) := by
  have hct : enc_bytes.drop 32 = [] := List.drop_eq_nil_of_le hlen
  have hfail : decrypt_with_pycrypto C pbkdf2 enc_bytes password
      = Except.error DecryptError.indexError := by
    simp only [decrypt_with_pycrypto, hct]
    rfl
  refine ⟨hfail, fun ca pa hA => ?_⟩
  cases ca <;> cases pa <;>
    simp [try_decrypt, hA, hfail, Except.toOption]

/-- Witness for C9 at a concrete 32-byte input with both backends
available. -/
theorem short_input_decrypt_fails_witness :
    decrypt_with_pycrypto idBlockCipher constPBKDF2 (List.replicate 32 5) []
      = Except.error DecryptError.indexError
    ∧ try_decrypt true true failAEAD idBlockCipher constPBKDF2 id
        (List.replicate 32 5) []
      = Except.error () :=
  have h := short_input_decrypt_fails idBlockCipher failAEAD constPBKDF2 id
    (List.replicate 32 5) [] (by decide)
  ⟨h.1, h.2 true true rfl⟩

mutual
/-- A filesystem node seen by `zip_paths_to_file`
(`Scripts/api_helpers.py`): a regular file with its byte content, or a
directory with named children.  Paths that are neither (missing paths,
special files) are simply absent from the tree. -/
inductive FSNode where
  | file (content : List Nat)
  | dir (children : FSChildren)

/-- The ordered named children of a directory (the order `os.walk`
reports). -/
inductive FSChildren where
  | nil
  | cons (name : String) (node : FSNode) (rest : FSChildren)
end

/-- An entry written into the archive by `zipObj.write`: a directory
entry, or a file entry carrying the file's content.  The arcname is
kept as its path components. -/
inductive ZEntry where
  | dirE (arcname : List String)
  | fileE (arcname : List String) (content : List Nat)
deriving DecidableEq, Repr

/-- The directory entries of one `os.walk` level: the `for dirname in
dirs` loop body of `zip_paths_to_file`. -/
def levelDirEntries (pre : List String) : FSChildren → List ZEntry
  | FSChildren.nil => []
  | FSChildren.cons n (FSNode.dir _) rest =>
      ZEntry.dirE (pre ++ [n]) :: levelDirEntries pre rest
  | FSChildren.cons _ (FSNode.file _) rest => levelDirEntries pre rest

/-- The file entries of one `os.walk` level: the `for filename in
files` loop body of `zip_paths_to_file`. -/
def levelFileEntries (pre : List String) : FSChildren → List ZEntry
  | FSChildren.nil => []
  | FSChildren.cons n (FSNode.file c) rest =>
      ZEntry.fileE (pre ++ [n]) c :: levelFileEntries pre rest
  | FSChildren.cons _ (FSNode.dir _) rest => levelFileEntries pre rest

/-- The entries contributed by the recursive `os.walk` visits below one
level: `os.walk` descends top-down into each subdirectory in order. -/
def walkSubdirs (pre : List String) : FSChildren → List ZEntry
  | FSChildren.nil => []
  | FSChildren.cons _ (FSNode.file _) rest => walkSubdirs pre rest
  | FSChildren.cons n (FSNode.dir cs) rest =>
      (levelDirEntries (pre ++ [n]) cs ++ levelFileEntries (pre ++ [n]) cs
        ++ walkSubdirs (pre ++ [n]) cs)
      ++ walkSubdirs pre rest

/-- All entries the `os.walk` loop of `zip_paths_to_file` writes for a
directory whose contents are `cs`, with arcnames below the prefix
`pre` (the directory's own name, since arcnames are relative to the
directory's parent). -/
def osWalkAdd (pre : List String) (cs : FSChildren) : List ZEntry :=
  levelDirEntries pre cs ++ levelFileEntries pre cs ++ walkSubdirs pre cs

/-- The claim's description of a directory's contribution: every file
and directory strictly under the directory, each once, named relative
to the directory's parent, in tree order. -/
def descendants (pre : List String) : FSChildren → List ZEntry
  | FSChildren.nil => []
  | FSChildren.cons n (FSNode.file c) rest =>
      ZEntry.fileE (pre ++ [n]) c :: descendants pre rest
  | FSChildren.cons n (FSNode.dir cs) rest =>
      ZEntry.dirE (pre ++ [n]) :: (descendants (pre ++ [n]) cs ++ descendants pre rest)

/-- Look a name up among a directory's children. -/
def lookupChild (s : String) : FSChildren → Option FSNode
  | FSChildren.nil => none
  | FSChildren.cons n node rest => if n = s then some node else lookupChild s rest

/-- Resolve a relative component path against a node. -/
def resolveNode : FSNode → List String → Option FSNode
  | node, [] => some node
  | FSNode.file _, _ :: _ => none
  | FSNode.dir cs, s :: rest =>
      match lookupChild s cs with
      | some child => resolveNode child rest
      | none => none

/-- Resolve an absolute path (a non-empty component list) against the
filesystem root; the empty path names nothing (`os.path.isfile` and
`os.path.isdir` both reject it). -/
def resolvePath (root : FSChildren) : List String → Option FSNode
  | [] => none
  | p => resolveNode (FSNode.dir root) p

/-- The entries `zip_paths_to_file` writes for one element of
`source_paths`: a regular file becomes one entry named by its base
filename; a directory contributes its `os.walk` entries relative to
the directory's parent; anything else is skipped. -/
def itemEntries (root : FSChildren) (item : List String) : List ZEntry :=
  match resolvePath root item with
  | some (FSNode.file c) => [ZEntry.fileE [item.getLastD ""] c]
  | some (FSNode.dir cs) => osWalkAdd [item.getLastD ""] cs
  | none => []

/-- `zip_paths_to_file` (`Scripts/api_helpers.py`): the sequence of
entries written to the archive for a source path list (the password,
compression method and level affect only the encoding of the archive,
not which entries are written). -/
def zip_paths_to_file (root : FSChildren) (source_paths : List (List String)) : List ZEntry :=
  source_paths.flatMap (itemEntries root)

/-- The claim's description of `zip_paths_to_file`: base-named file
entries, parent-relative directory descendants, skipped non-paths. -/
def specEntriesForPath (root : FSChildren) (item : List String) : List ZEntry :=
  match resolvePath root item with
  | some (FSNode.file c) => [ZEntry.fileE [item.getLastD ""] c]
  | some (FSNode.dir cs) => descendants [item.getLastD ""] cs
  | none => []

/-- Moving a middle segment of a concatenation to the front preserves
the entries up to permutation. -/
theorem perm_shift {α : Type} (AB U W D1 D2 : List α)
    (h1 : U.Perm D1) (h2 : (AB ++ W).Perm D2) :
    (AB ++ (U ++ W)).Perm (D1 ++ D2) := by
  have s1 : (AB ++ (U ++ W)).Perm (AB ++ (W ++ U)) :=
    List.Perm.append_left AB List.perm_append_comm
  have e1 : AB ++ (W ++ U) = (AB ++ W) ++ U := (List.append_assoc AB W U).symm
  rw [e1] at s1
  exact s1.trans ((List.Perm.append h2 h1).trans List.perm_append_comm)

/-- The `os.walk` entry order is a permutation of the tree-order
descendant list: the same entries, each once. -/
theorem osWalkAdd_perm_descendants : ∀ (cs : FSChildren) (pre : List String),
    (osWalkAdd pre cs).Perm (descendants pre cs)
  | FSChildren.nil, pre => by
      simp [osWalkAdd, levelDirEntries, levelFileEntries, walkSubdirs, descendants]
  | FSChildren.cons n (FSNode.file c) rest, pre => by
      have ih : ((levelDirEntries pre rest ++ levelFileEntries pre rest)
          ++ walkSubdirs pre rest).Perm (descendants pre rest) := by
        have h := osWalkAdd_perm_descendants rest pre
        simpa [osWalkAdd] using h
      simp only [osWalkAdd, levelDirEntries, levelFileEntries, walkSubdirs,
        descendants, List.cons_append]
      exact (List.Perm.append List.perm_middle
        (List.Perm.refl (walkSubdirs pre rest))).trans (List.Perm.cons _ ih)
  | FSChildren.cons n (FSNode.dir cs2) rest, pre => by
      have ih1 : ((levelDirEntries (pre ++ [n]) cs2 ++ levelFileEntries (pre ++ [n]) cs2)
          ++ walkSubdirs (pre ++ [n]) cs2).Perm (descendants (pre ++ [n]) cs2) := by
        have h := osWalkAdd_perm_descendants cs2 (pre ++ [n])
        simpa [osWalkAdd] using h
      have ih2 : ((levelDirEntries pre rest ++ levelFileEntries pre rest)
          ++ walkSubdirs pre rest).Perm (descendants pre rest) := by
        have h := osWalkAdd_perm_descendants rest pre
        simpa [osWalkAdd] using h
      simp only [osWalkAdd, levelDirEntries, levelFileEntries, walkSubdirs,
        descendants, List.cons_append]
      exact List.Perm.cons _ (perm_shift _ _ _ _ _ ih1 ih2)

/-- One source path's entries match the claim's description up to
order. -/
theorem itemEntries_perm (root : FSChildren) (item : List String) :
    (itemEntries root item).Perm (specEntriesForPath root item) := by
  cases hres : resolvePath root item with
  | none => simp [itemEntries, specEntriesForPath, hres]
  | some node =>
      cases node with
      | file c => simp [itemEntries, specEntriesForPath, hres]
      | dir cs =>
          simp only [itemEntries, specEntriesForPath, hres]
          exact osWalkAdd_perm_descendants cs _

/-- C8: `zip_paths_to_file` adds each regular file as one entry named
by its base filename, adds every file and directory under a directory
path with entry names relative to the parent of that directory, and
skips each path that is neither — removing such a path from the source
list leaves the written entries unchanged (no error is raised). -/
theorem zip_paths_to_file_entries (root : FSChildren) (paths : List (List String)) :
    (zip_paths_to_file root paths).Perm (paths.flatMap (specEntriesForPath root))
    ∧ (∀ (xs ys : List (List String)) (bad : List String),
        resolvePath root bad = none →
        zip_paths_to_file root (xs ++ bad :: ys) = zip_paths_to_file root (xs ++ ys)) := by
  constructor
  · induction paths with
    | nil => exact List.Perm.refl _
    | cons p rest ih =>
        simp only [zip_paths_to_file, List.flatMap_cons] at *
        exact List.Perm.append (itemEntries_perm root p) ih
  · intro xs ys bad h
    simp [zip_paths_to_file, List.flatMap_append, List.flatMap_cons, itemEntries, h]

/-- A concrete filesystem: a file `f`, and a directory `d` containing
a file `x` and a subdirectory `sub` holding a file `y`. -/
def sampleFS : FSChildren :=
  FSChildren.cons "f" (FSNode.file [10])
    (FSChildren.cons "d"
      (FSNode.dir
        (FSChildren.cons "x" (FSNode.file [1])
          (FSChildren.cons "sub"
            (FSNode.dir (FSChildren.cons "y" (FSNode.file [2]) FSChildren.nil))
            FSChildren.nil)))
      FSChildren.nil)

/-- Witness for C8 on a concrete tree: the built entries match the
described ones, and dropping a missing path changes nothing. -/
theorem zip_paths_to_file_entries_witness :
    (zip_paths_to_file sampleFS [["f"], ["d"], ["missing"]]).Perm
      ([["f"], ["d"], ["missing"]].flatMap (specEntriesForPath sampleFS))
    ∧ zip_paths_to_file sampleFS ([["f"]] ++ ["missing"] :: [["d"]])
      = zip_paths_to_file sampleFS ([["f"]] ++ [["d"]]) :=
  have h := zip_paths_to_file_entries sampleFS [["f"], ["d"], ["missing"]]
  ⟨h.1, h.2 [["f"]] [["d"]] ["missing"] rfl⟩

/-- Label sanitisation in `save_and_encrypt_backup`
(`Scripts/api_helpers.py`): keep only alphanumeric characters, `-` and
`_` (an ASCII model of Python's `str.isalnum`); the trailing
`.strip()` is the identity because no whitespace survives the filter;
an empty result falls back to the literal `backup`. -/
def sanitizeLabel (s : String) : String :=
  let t := String.mk (s.data.filter fun c => c.isAlphanum || c == '-' || c == '_')
  if t = "" then "backup" else t

/-- What `save_and_encrypt_backup` leaves in the backup store: with a
truthy password, a pyzipper `AESZipFile` written with `WZ_AES`
encryption, named `<safe>.enc.zip`, holding the entries written by
`writestr`; otherwise the plain zip moved to `<safe>.zip`. -/
inductive StoredBackup where
  | encryptedZip (name : String) (entries : List (String × List Nat))
  | plainZip (name : String) (bytes : List Nat)
deriving DecidableEq, Repr

/-- The file name a stored backup is persisted under. -/
def storedName : StoredBackup → String
  | StoredBackup.encryptedZip n _ => n
  | StoredBackup.plainZip n _ => n

/-- `save_and_encrypt_backup` (`Scripts/api_helpers.py`): build the
plain zip of the source paths (`zip_paths_to_file` with
`password=None`, serialised to bytes by the zip library, modelled by
the `zipSerialize` parameter), then — when the password is truthy
(present and non-empty) — store those bytes as the single `writestr`
entry `<safe>.zip` of a `WZ_AES` wrapper zip named `<safe>.enc.zip`;
otherwise move the plain zip to `<safe>.zip`.  The stored path is
composed from the sanitised name alone: no existence check and no
disambiguation against files already in the store. -/
def save_and_encrypt_backup (zipSerialize : List ZEntry → List Nat)
    (root : FSChildren) (source_paths : List (List String))
    (backup_name : String) (password : Option (List Nat)) : StoredBackup :=
  let safe_name := sanitizeLabel backup_name
  let data := zipSerialize (zip_paths_to_file root source_paths)
  match password with
  | some pw =>
      if pw = [] then StoredBackup.plainZip (safe_name ++ ".zip") data
      else
        StoredBackup.encryptedZip (safe_name ++ ".enc.zip")
          [(safe_name ++ ".zip", data)]
  | none => StoredBackup.plainZip (safe_name ++ ".zip") data

/-- C4 counterexample: the single wrapper entry's bytes are the plain
inner zip container itself, not a Backend-A envelope — at a concrete
input the entry content is a 1-byte string, which no `salt(16) ‖
token` decomposition can produce. -/
theorem api_entry_not_backendA_envelope :
    save_and_encrypt_backup (fun _ => [7]) FSChildren.nil [] "lbl" (some [1])
      = StoredBackup.encryptedZip "lbl.enc.zip" [("lbl.zip", [7])]
    ∧ ¬∃ salt token : List Nat, salt.length = 16 ∧ ([7] : List Nat) = salt ++ token := by
  constructor
  · rfl
  · rintro ⟨salt, token, hlen, heq⟩
    have : ([7] : List Nat).length = salt.length + token.length := by
      rw [heq, List.length_append]
    rw [hlen] at this
    simp only [List.length_cons, List.length_nil] at this
    omega

/-- C4 (amended): for every path list, label and non-empty password,
`save_and_encrypt_backup` stores the backup as
`<sanitized-label>.enc.zip`, a `WZ_AES` zip containing exactly one
entry named `<sanitized-label>.zip` whose bytes are the plain inner
zip produced by `zip_paths_to_file` — the protection comes from the
wrapper zip's AES layer, not from a Backend-A envelope. -/
theorem save_and_encrypt_backup_encrypted_shape
    (zipSerialize : List ZEntry → List Nat) (root : FSChildren)
    (source_paths : List (List String)) (backup_name : String)
    (pw : List Nat) (hpw : pw ≠ []) :
    save_and_encrypt_backup zipSerialize root source_paths backup_name (some pw)
      = StoredBackup.encryptedZip (sanitizeLabel backup_name ++ ".enc.zip")
          [(sanitizeLabel backup_name ++ ".zip",
            zipSerialize (zip_paths_to_file root source_paths))] := by
  simp [save_and_encrypt_backup, hpw]

/-- Witness for the amended C4 at a concrete label needing
sanitisation. -/
theorem save_and_encrypt_backup_encrypted_shape_witness :
    save_and_encrypt_backup (fun _ => [1, 2]) sampleFS [["f"]] "My Label!" (some [5])
      = StoredBackup.encryptedZip "MyLabel.enc.zip" [("MyLabel.zip", [1, 2])] := by
  rw [save_and_encrypt_backup_encrypted_shape (fun _ => [1, 2]) sampleFS [["f"]]
    "My Label!" [5] (by decide)]
  rfl

/-- C5 counterexample: persisting two backups with the same label in
immediate succession yields the same stored file name — both land at
`archive.enc.zip`, so the names are not distinct and the second write
replaces the first. -/
theorem same_label_same_stored_name :
    storedName (save_and_encrypt_backup (fun _ => [1]) FSChildren.nil [] "archive" (some [1]))
      = "archive.enc.zip"
    ∧ storedName (save_and_encrypt_backup (fun _ => [2]) FSChildren.nil [] "archive" (some [2]))
      = "archive.enc.zip" := by
  exact ⟨rfl, rfl⟩

/-- C5 (amended): the stored file name of `save_and_encrypt_backup` is
a pure function of the label (and password truthiness) — the store
directory is never consulted, no numeric disambiguator is appended,
and a second backup with the same label reuses (and overwrites) the
first one's name. -/
theorem save_and_encrypt_backup_name_collision
    (zipSerialize1 zipSerialize2 : List ZEntry → List Nat)
    (root1 root2 : FSChildren) (ps1 ps2 : List (List String))
    (label : String) (pw1 pw2 : List Nat) (h1 : pw1 ≠ []) (h2 : pw2 ≠ []) :
    storedName (save_and_encrypt_backup zipSerialize1 root1 ps1 label (some pw1))
      = storedName (save_and_encrypt_backup zipSerialize2 root2 ps2 label (some pw2)) := by
  simp [save_and_encrypt_backup, storedName, h1, h2]

/-- Witness for the amended C5 at two concrete same-label saves. -/
theorem save_and_encrypt_backup_name_collision_witness :
    storedName (save_and_encrypt_backup (fun _ => [1]) sampleFS [["f"]] "docs" (some [1]))
      = storedName (save_and_encrypt_backup (fun _ => [2]) sampleFS [["d"]] "docs" (some [2])) :=
  save_and_encrypt_backup_name_collision (fun _ => [1]) (fun _ => [2])
    sampleFS sampleFS [["f"]] [["d"]] "docs" [1] [2] (by decide) (by decide)

/-- One entry of a stored wrapper zip as pyzipper sees it: its name,
the password it was encrypted with (`none` for an entry stored without
encryption) and its content. -/
structure ZipFileEntry where
  name : String
  entryPassword : Option (List Nat)
  content : List Nat

/-- A stored file as `decrypt_backup_to_zip` sees it: its raw bytes
(returned verbatim by the plain-zip branch) and the entry list the zip
library reads from it in the encrypted branch. -/
structure DiskFile where
  bytes : List Nat
  entries : List ZipFileEntry

/-- Failure modes of `decrypt_backup_to_zip`: the `FileNotFoundError`
for a missing stored path, the `RuntimeError` raised for an empty
encrypted archive, and the zip library's `RuntimeError` when reading
an encrypted entry without the right password. -/
inductive RestoreError where
  | notFound
  | emptyArchive
  | readFailed
deriving DecidableEq, Repr

/-- Python's `str.endswith`, on the character lists of the strings. -/
def strEndsWith (path suffix : String) : Bool :=
  suffix.data.isSuffixOf path.data

/-- The password installed on the open wrapper zip: the source runs
`zf.setpassword(password)` only when `password` is truthy (present and
non-empty); the surrounding `try`/`except` swallows only failures of
the call itself. -/
def installedPassword (password : Option (List Nat)) : Option (List Nat) :=
  match password with
  | some pw => if pw = [] then none else some pw
  | none => none

/-- `zf.read` on one entry of a pyzipper AES zip: an entry stored
without encryption is returned directly; a `WZ_AES`-encrypted entry is
returned only when the installed password matches the one it was
written with, and otherwise the library raises `RuntimeError`
(password missing or wrong), modelled as `none`. -/
def readEntry (installed : Option (List Nat)) (e : ZipFileEntry) : Option (List Nat) :=
  match e.entryPassword with
  | none => some e.content
  | some p =>
      match installed with
      | none => none
      | some q => if q = p then some e.content else none

/-- `decrypt_backup_to_zip` (`Scripts/api_helpers.py`): missing path →
`FileNotFoundError`; a name ending in `.zip` but not `.enc.zip` →
the raw bytes are copied out unchanged; otherwise the file is opened
as an AES zip, the password is installed when truthy, an empty name
list raises, and otherwise `zf.read` is called on the first listed
entry, whatever its name and however many entries follow — returning
its bytes on success and propagating the library's `RuntimeError`
(uncaught in the source) when the read fails. -/
def decrypt_backup_to_zip (store : String → Option DiskFile)
    (stored_backup_path : String) (password : Option (List Nat)) :
    Except RestoreError (List Nat) :=
  match store stored_backup_path with
  | none => Except.error RestoreError.notFound
  | some f =>
      if strEndsWith stored_backup_path ".zip"
          && !(strEndsWith stored_backup_path ".enc.zip") then
        Except.ok f.bytes
      else
        match f.entries with
        | [] => Except.error RestoreError.emptyArchive
        | e :: _ =>
            match readEntry (installedPassword password) e with
            | some data => Except.ok data
            | none => Except.error RestoreError.readFailed

/-- C10 counterexample: a stored `.enc.zip` with a nonempty entry list
whose `WZ_AES`-encrypted first entry is read with a wrong password
makes `decrypt_backup_to_zip` raise the zip library's error instead of
returning the entry's bytes — so the function neither returns the
first entry's bytes unconditionally nor errors only when the entry
list is empty. -/
theorem decrypt_backup_to_zip_wrong_password_error :
    (fun p => if p = "b.enc.zip"
        then some (DiskFile.mk [9] [ZipFileEntry.mk "x" (some [1]) [4]]) else none)
      "b.enc.zip"
      = some (DiskFile.mk [9] [ZipFileEntry.mk "x" (some [1]) [4]])
    ∧ ([ZipFileEntry.mk "x" (some [1]) [4]] : List ZipFileEntry) ≠ []
    ∧ decrypt_backup_to_zip
        (fun p => if p = "b.enc.zip"
            then some (DiskFile.mk [9] [ZipFileEntry.mk "x" (some [1]) [4]]) else none)
        "b.enc.zip" (some [2])
      = Except.error RestoreError.readFailed := by
  refine ⟨rfl, ?_, rfl⟩
  simp

/-- C10 (amended): for every stored backup whose name ends in
`.enc.zip`, `decrypt_backup_to_zip` calls `zf.read` on the first
entry in the wrapper zip's name list — regardless of that entry's
name and of how many additional entries the wrapper contains — and
returns its bytes whenever that read succeeds (the entry is stored
unencrypted, or the installed truthy password matches its encryption
password); it reports not-found when the stored path does not exist,
the empty-archive error when the entry list is empty, and propagates
the zip library's error when the first entry's read fails because the
password is missing or wrong. -/
theorem decrypt_backup_to_zip_first_entry (store : String → Option DiskFile)
    (path : String) (password : Option (List Nat))
    (henc : strEndsWith path ".enc.zip" = true) :
    (store path = none →
      decrypt_backup_to_zip store path password = Except.error RestoreError.notFound)
    ∧ (∀ f : DiskFile, store path = some f → f.entries = [] →
        decrypt_backup_to_zip store path password = Except.error RestoreError.emptyArchive)
    ∧ (∀ (f : DiskFile) (e : ZipFileEntry) (rest : List ZipFileEntry) (data : List Nat),
        store path = some f → f.entries = e :: rest →
        readEntry (installedPassword password) e = some data →
        decrypt_backup_to_zip store path password = Except.ok data)
    ∧ (∀ (f : DiskFile) (e : ZipFileEntry) (rest : List ZipFileEntry),
        store path = some f → f.entries = e :: rest →
        readEntry (installedPassword password) e = none →
        decrypt_backup_to_zip store path password = Except.error RestoreError.readFailed) := by
  have hcond : (strEndsWith path ".zip" && !(strEndsWith path ".enc.zip")) = false := by
    rw [henc]
    simp
  refine ⟨?_, ?_, ?_, ?_⟩
  · intro h
    simp [decrypt_backup_to_zip, h]
  · intro f hf he
    simp [decrypt_backup_to_zip, hf, hcond, he]
  · intro f e rest data hf he hread
    simp [decrypt_backup_to_zip, hf, hcond, he, hread]
  · intro f e rest hf he hread
    simp [decrypt_backup_to_zip, hf, hcond, he, hread]

/-- Witness for the amended C10 at concrete stores: a two-entry
wrapper whose encrypted first entry is read with the right password, a
wrapper whose first entry is stored unencrypted and read with no
password, the empty wrapper, a missing path, and an encrypted first
entry read with no password installed. -/
theorem decrypt_backup_to_zip_first_entry_witness :
    decrypt_backup_to_zip
        (fun p => if p = "b.enc.zip"
            then some (DiskFile.mk [9]
              [ZipFileEntry.mk "x" (some [1]) [4], ZipFileEntry.mk "y" (some [1]) [5]])
            else none)
        "b.enc.zip" (some [1])
      = Except.ok [4]
    ∧ decrypt_backup_to_zip
        (fun p => if p = "d.enc.zip"
            then some (DiskFile.mk [9] [ZipFileEntry.mk "z" none [6]]) else none)
        "d.enc.zip" none
      = Except.ok [6]
    ∧ decrypt_backup_to_zip
        (fun p => if p = "b.enc.zip" then some (DiskFile.mk [9] []) else none)
        "b.enc.zip" none
      = Except.error RestoreError.emptyArchive
    ∧ decrypt_backup_to_zip (fun _ => none) "c.enc.zip" none
      = Except.error RestoreError.notFound
    ∧ decrypt_backup_to_zip
        (fun p => if p = "e.enc.zip"
            then some (DiskFile.mk [9] [ZipFileEntry.mk "w" (some [3]) [7]]) else none)
        "e.enc.zip" none
      = Except.error RestoreError.readFailed := by
  have h1 := decrypt_backup_to_zip_first_entry
    (fun p => if p = "b.enc.zip"
        then some (DiskFile.mk [9]
          [ZipFileEntry.mk "x" (some [1]) [4], ZipFileEntry.mk "y" (some [1]) [5]])
        else none)
    "b.enc.zip" (some [1]) (by decide)
  have h2 := decrypt_backup_to_zip_first_entry
    (fun p => if p = "d.enc.zip"
        then some (DiskFile.mk [9] [ZipFileEntry.mk "z" none [6]]) else none)
    "d.enc.zip" none (by decide)
  have h3 := decrypt_backup_to_zip_first_entry
    (fun p => if p = "b.enc.zip" then some (DiskFile.mk [9] []) else none)
    "b.enc.zip" none (by decide)
  have h4 := decrypt_backup_to_zip_first_entry (fun _ => none) "c.enc.zip" none
    (by decide)
  have h5 := decrypt_backup_to_zip_first_entry
    (fun p => if p = "e.enc.zip"
        then some (DiskFile.mk [9] [ZipFileEntry.mk "w" (some [3]) [7]]) else none)
    "e.enc.zip" none (by decide)
  exact ⟨h1.2.2.1 (DiskFile.mk [9]
      [ZipFileEntry.mk "x" (some [1]) [4], ZipFileEntry.mk "y" (some [1]) [5]])
      (ZipFileEntry.mk "x" (some [1]) [4]) [ZipFileEntry.mk "y" (some [1]) [5]] [4]
      (by simp) rfl rfl,
    h2.2.2.1 (DiskFile.mk [9] [ZipFileEntry.mk "z" none [6]])
      (ZipFileEntry.mk "z" none [6]) [] [6] (by simp) rfl rfl,
    h3.2.1 (DiskFile.mk [9] []) (by simp) rfl,
    h4.1 rfl,
    h5.2.2.2 (DiskFile.mk [9] [ZipFileEntry.mk "w" (some [3]) [7]])
      (ZipFileEntry.mk "w" (some [3]) [7]) [] (by simp) rfl rfl⟩
